import Mathlib

/-!
Verification of the Instacart implicit-feedback recommender (imf.ipynb).

The notebook builds a product × user purchase-count matrix from prior
orders, converts it to a confidence matrix, factorizes it with the
external `implicit` ALS library, and evaluates recall against a
popularity baseline.  Each definition below is a shallow embedding of
one function of the notebook (or, where the deciding code lives in the
external library, a model built from the specification, marked as such).
-/

namespace IMF

/-- A sparse matrix in coordinate form, as produced by
`scipy.sparse.coo_matrix`: a list of (row, column, value) entries.
Values are modelled as rationals (the notebook uses 64-bit ints and
doubles; all quantities involved are small integers, represented
exactly). -/
structure SparseMatrix where
  entries : List (Nat × Nat × ℚ)
deriving DecidableEq

/-- Embedding of `confidence_matrix(prod_user_matrix, alpha)`:
`return (prod_user_matrix * alpha).astype("double")`.  Scalar
multiplication of a sparse matrix scales every stored entry by `alpha`;
no constant is added. -/
def confidence_matrix (m : SparseMatrix) (alpha : ℚ) : SparseMatrix :=
  ⟨m.entries.map (fun e => (e.1, e.2.1, e.2.2 * alpha))⟩

/-- Embedding of `recall_score(actual, pred)`: returns 0 when the
`actual` list is empty, otherwise converts both lists to sets and
returns |actual ∩ pred| / |actual|. -/
def recall_score {α : Type} [DecidableEq α] (actual pred : List α) : ℚ :=
  if actual.length = 0 then 0
  else ((actual.toFinset ∩ pred.toFinset).card : ℚ) / (actual.toFinset.card : ℚ)

/-- The stored value of an entry after the confidence transform is
`alpha * r`, not `1 + alpha * r`: the transform is pure scalar
multiplication. -/
theorem confidence_entry_is_alpha_mul (m : SparseMatrix) (alpha : ℚ)
    (i j : Nat) (r : ℚ) (h : (i, j, r) ∈ m.entries) :
    (i, j, alpha * r) ∈ (confidence_matrix m alpha).entries := by
  unfold confidence_matrix
  simpa [mul_comm] using List.mem_map_of_mem (fun e => (e.1, e.2.1, e.2.2 * alpha)) h

/-- Witness: the notebook asserts user 1 bought product 196 ten times
(matrix entry (195, 0) = 10); with alpha = 15 the stored confidence is
150. -/
theorem confidence_entry_is_alpha_mul_witness :
    ((195, 0, (10 : ℚ)) ∈ (SparseMatrix.mk [(195, 0, 10)]).entries) ∧
    ((195, 0, (150 : ℚ)) ∈
      (confidence_matrix (SparseMatrix.mk [(195, 0, 10)]) 15).entries) := by
  refine ⟨by decide, ?_⟩
  have h := confidence_entry_is_alpha_mul (SparseMatrix.mk [(195, 0, 10)]) 15 195 0 10
    (by decide)
  norm_num at h ⊢
  exact h

/-- With alpha = 15 and raw count r = 10 the stored confidence is 150,
refuting the claimed value 151 = 1 + alpha * r. -/
theorem confidence_not_one_plus_alpha_mul :
    (confidence_matrix (SparseMatrix.mk [(195, 0, 10)]) 15).entries
      = [(195, 0, 150)] ∧ (150 : ℚ) ≠ 151 := by
  constructor
  · unfold confidence_matrix
    norm_num
  · norm_num

/-- recall_score computes |actual ∩ predicted| / |actual| for nonempty
actual and 0 for empty actual; hence recall of the empty list is 0,
recall of a nonempty list against itself is 1, and
recall({1,2,3}, {2,3,4,5}) = 2/3. -/
theorem recall_score_spec :
    (∀ a p : List ℤ, a ≠ [] →
      recall_score a p = ((a.toFinset ∩ p.toFinset).card : ℚ) / (a.toFinset.card : ℚ)) ∧
    (∀ p : List ℤ, recall_score [] p = 0) ∧
    (∀ a : List ℤ, a ≠ [] → recall_score a a = 1) ∧
    recall_score ([1, 2, 3] : List ℤ) [2, 3, 4, 5] = 2 / 3 := by
  have hformula : ∀ a p : List ℤ, a ≠ [] →
      recall_score a p = ((a.toFinset ∩ p.toFinset).card : ℚ) / (a.toFinset.card : ℚ) := by
    intro a p ha
    unfold recall_score
    rw [if_neg (by simpa [List.length_eq_zero] using ha)]
  refine ⟨hformula, ?_, ?_, ?_⟩
  · intro p; unfold recall_score; simp
  · intro a ha
    rw [hformula a a ha, Finset.inter_self]
    have hcard : 0 < a.toFinset.card := by
      rcases List.exists_mem_of_ne_nil a ha with ⟨x, hx⟩
      exact Finset.card_pos.mpr ⟨x, List.mem_toFinset.mpr hx⟩
    field_simp
  · have h1 : (([1, 2, 3] : List ℤ).toFinset ∩ ([2, 3, 4, 5] : List ℤ).toFinset).card = 2 := by
      decide
    have h2 : (([1, 2, 3] : List ℤ).toFinset).card = 3 := by decide
    rw [hformula [1, 2, 3] [2, 3, 4, 5] (by decide), h1, h2]
    norm_num

/-- Witness for the conditional parts of recall_score_spec, at the
concrete nonempty list [7]. -/
theorem recall_score_spec_witness :
    ([(7 : ℤ)] ≠ []) ∧ recall_score [7] [7] = 1 :=
  ⟨by decide, recall_score_spec.2.2.1 [7] (by decide)⟩

/-- recall_score is monotone in the predicted list under inclusion of
the underlying sets, for fixed actual. -/
theorem recall_score_monotone (a P Q : List ℤ)
    (h : P.toFinset ⊆ Q.toFinset) :
    recall_score a P ≤ recall_score a Q := by
  unfold recall_score
  by_cases ha : a.length = 0
  · simp [ha]
  · rw [if_neg ha, if_neg ha]
    have hcard : (0 : ℚ) < (a.toFinset.card : ℚ) := by
      have : a ≠ [] := by simpa [List.length_eq_zero] using ha
      rcases List.exists_mem_of_ne_nil a this with ⟨x, hx⟩
      exact_mod_cast Finset.card_pos.mpr ⟨x, List.mem_toFinset.mpr hx⟩
    rw [div_le_div_iff_of_pos_right hcard]
    exact_mod_cast Finset.card_le_card (Finset.inter_subset_inter (le_refl _) h)

/-- Witness: recall of {1} against {1} is at most recall against {1,2}. -/
theorem recall_score_monotone_witness :
    (List.toFinset [(1 : ℤ)] ⊆ List.toFinset [(1 : ℤ), 2]) ∧
    recall_score [1] [1] ≤ recall_score [1] [1, 2] :=
  ⟨by decide, recall_score_monotone [1] [1] [1, 2] (by decide)⟩

/-- recall_score depends only on the underlying sets of its two list
arguments: permuting or duplicating elements of either list leaves the
result unchanged. -/
theorem recall_score_extensional (a₁ a₂ p₁ p₂ : List ℤ)
    (ha : a₁.toFinset = a₂.toFinset) (hp : p₁.toFinset = p₂.toFinset) :
    recall_score a₁ p₁ = recall_score a₂ p₂ := by
  unfold recall_score
  by_cases h₁ : a₁.length = 0
  · have e₁ : a₁ = [] := List.length_eq_zero.mp h₁
    have e₂ : a₂ = [] := by
      have := ha
      rw [e₁] at this
      exact (List.toFinset_eq_empty_iff a₂).mp (by simpa using this.symm)
    simp [e₁, e₂]
  · have e₁ : a₁ ≠ [] := by simpa [List.length_eq_zero] using h₁
    have e₂ : a₂ ≠ [] := by
      intro hnil
      apply e₁
      rw [hnil] at ha
      exact (List.toFinset_eq_empty_iff a₁).mp (by simpa using ha)
    rw [if_neg (by simpa [List.length_eq_zero] using e₁),
        if_neg (by simpa [List.length_eq_zero] using e₂), ha, hp]

/-- Witness: a permuted, duplicated pair of lists gives the same recall
as the originals. -/
theorem recall_score_extensional_witness :
    (List.toFinset [(1 : ℤ), 2] = List.toFinset [(2 : ℤ), 1, 2]) ∧
    (List.toFinset [(2 : ℤ), 3] = List.toFinset [(3 : ℤ), 2]) ∧
    recall_score [1, 2] [2, 3] = recall_score [2, 1, 2] [3, 2] :=
  ⟨by decide, by decide,
    recall_score_extensional [1, 2] [2, 1, 2] [2, 3] [3, 2] (by decide) (by decide)⟩

/-! ## Interaction aggregation (get_user_product_prior_df) -/

/-- Embedding of the merge step of `get_user_product_prior_df`: the
inner join of the prior (order_id, user_id) rows with the
(order_id, product_id) rows on order_id, projected to
(user_id, product_id).  Each element of the result is one purchase
event. -/
def mergeOrdersProducts (orderUser orderProduct : List (Nat × Nat)) :
    List (Nat × Nat) :=
  orderUser.flatMap (fun ou =>
    (orderProduct.filter (fun op => op.1 = ou.1)).map (fun op => (ou.2, op.2)))

/-- Key order used by the pandas groupby: ascending lexicographic on
(user_id, product_id). -/
def keyLE : Nat × Nat → Nat × Nat → Prop :=
  fun a b => a.1 < b.1 ∨ (a.1 = b.1 ∧ a.2 ≤ b.2)

instance : DecidableRel keyLE := fun a b => by unfold keyLE; infer_instance

/-- Embedding of `get_user_product_prior_df`: merge prior orders with
their products, then `groupby([user_id, product_id]).size()`, giving
one row (user_id, product_id, quantity) per distinct pair, where the
quantity is the number of merged rows with that pair. -/
def get_user_product_prior_df (orderUser orderProduct : List (Nat × Nat)) :
    List (Nat × Nat × Nat) :=
  (List.insertionSort keyLE (mergeOrdersProducts orderUser orderProduct).dedup).map
    (fun up => (up.1, up.2,
      ((mergeOrdersProducts orderUser orderProduct).filter (fun q => q = up)).length))

/-- Each purchase event carries an implicit unit count; summing them
over a group is the same as taking its length. -/
theorem sum_unit_counts {α : Type} (l : List α) :
    (l.map (fun _ => (1 : Nat))).sum = l.length := by
  induction l with
  | nil => rfl
  | cons a t ih => simp [ih, Nat.add_comm]

/-- The aggregation produces exactly one row per distinct
(user_id, product_id) pair occurring in the merged events, and the
quantity of that row is the sum of the individual (unit) counts of all
occurrences of the pair, hence positive; duplicates are summed, not
overwritten. -/
theorem aggregation_sums_duplicates (orderUser orderProduct : List (Nat × Nat)) :
    (((get_user_product_prior_df orderUser orderProduct).map
        (fun t => (t.1, t.2.1))).Nodup) ∧
    (∀ u p, (u, p) ∈ mergeOrdersProducts orderUser orderProduct →
      ∃ c, (u, p, c) ∈ get_user_product_prior_df orderUser orderProduct) ∧
    (∀ u p c, (u, p, c) ∈ get_user_product_prior_df orderUser orderProduct →
      c = (((mergeOrdersProducts orderUser orderProduct).filter
              (fun q => q = (u, p))).map (fun _ => (1 : Nat))).sum ∧ 0 < c) := by
  set merged := mergeOrdersProducts orderUser orderProduct with hmerged
  set keys := List.insertionSort keyLE merged.dedup with hkeys
  have hperm : List.Perm keys merged.dedup := List.perm_insertionSort keyLE merged.dedup
  have hkeymem : ∀ x, x ∈ keys ↔ x ∈ merged := by
    intro x
    rw [hperm.mem_iff, List.mem_dedup]
  refine ⟨?_, ?_, ?_⟩
  · have heq : ((get_user_product_prior_df orderUser orderProduct).map
        (fun t => (t.1, t.2.1))) = keys := by
      unfold get_user_product_prior_df
      rw [← hmerged, ← hkeys, List.map_map]
      have : ((fun t : Nat × Nat × Nat => (t.1, t.2.1)) ∘
          (fun up : Nat × Nat =>
            (up.1, up.2, (merged.filter (fun q => q = up)).length))) =
          fun up : Nat × Nat => up := by
        funext up
        simp
      rw [this]
      simp
    rw [heq]
    exact hperm.nodup_iff.mpr merged.nodup_dedup
  · intro u p hmem
    refine ⟨(merged.filter (fun q => q = (u, p))).length, ?_⟩
    unfold get_user_product_prior_df
    rw [← hmerged, ← hkeys]
    exact List.mem_map_of_mem _ ((hkeymem (u, p)).mpr hmem)
  · intro u p c hmem
    unfold get_user_product_prior_df at hmem
    rw [← hmerged, ← hkeys] at hmem
    rcases List.mem_map.mp hmem with ⟨up, hup, hupeq⟩
    have h1 : up.1 = u := congrArg Prod.fst hupeq
    have h2 : up.2 = p := congrArg (fun t => t.2.1) hupeq
    have h3 : (merged.filter (fun q => q = up)).length = c :=
      congrArg (fun t => t.2.2) hupeq
    have hup2 : up = (u, p) := by
      rw [← h1, ← h2]
    constructor
    · rw [sum_unit_counts, ← h3, hup2]
    · have : up ∈ merged := (hkeymem up).mp hup
      have hfilter : up ∈ merged.filter (fun q => q = up) :=
        List.mem_filter.mpr ⟨this, by simp⟩
      rw [← h3]
      exact List.length_pos_of_mem hfilter

/-- Witness: user 10 bought product 5 in two separate orders; the
aggregated quantity is 2 (the sum of the two unit events), not 1. -/
theorem aggregation_sums_duplicates_witness :
    ((10, 5, 2) ∈ get_user_product_prior_df [(1, 10), (2, 10)] [(1, 5), (2, 5)]) ∧
    (2 = (((mergeOrdersProducts [(1, 10), (2, 10)] [(1, 5), (2, 5)]).filter
            (fun q => q = (10, 5))).map (fun _ => (1 : Nat))).sum ∧ 0 < 2) :=
  ⟨by decide,
    (aggregation_sums_duplicates [(1, 10), (2, 10)] [(1, 5), (2, 5)]).2.2 10 5 2
      (by decide)⟩

/-! ## Index maps (u_dict, p_dict) -/

/-- Embedding of `cat.categories` for an id column: pandas assigns the
categories of a column as its distinct values sorted ascending. -/
def categories (l : List Nat) : List Nat :=
  List.insertionSort (fun a b => a ≤ b) l.dedup

/-- Embedding of the encoding direction: `u_dict` maps an id to its
position among the sorted distinct ids (equivalently `cat.codes`). -/
def encode (l : List Nat) (x : Nat) : Nat := (categories l).indexOf x

/-- Embedding of the decoding direction: `p_dict` maps a dense index
back to the id at that position of the sorted distinct ids. -/
def decode (l : List Nat) (i : Nat) : Nat := (categories l).getD i 0

/-- The index maps list the distinct raw ids sorted ascending without
repetition; two builds over the same input produce identical maps; and
decoding after encoding returns the original id for every id present
in the input column. -/
theorem index_map_round_trip (l : List Nat) :
    ((categories l).Sorted (fun a b => a ≤ b) ∧ (categories l).Nodup ∧
      ∀ x, x ∈ categories l ↔ x ∈ l) ∧
    (∀ l₂, l = l₂ →
      (∀ x, encode l x = encode l₂ x) ∧ (∀ i, decode l i = decode l₂ i)) ∧
    (∀ x, x ∈ l → decode l (encode l x) = x) := by
  have hperm : List.Perm (categories l) l.dedup := List.perm_insertionSort _ l.dedup
  refine ⟨⟨?_, ?_, ?_⟩, ?_, ?_⟩
  · exact List.sorted_insertionSort _ l.dedup
  · exact hperm.nodup_iff.mpr l.nodup_dedup
  · intro x
    rw [hperm.mem_iff, List.mem_dedup]
  · intro l₂ h
    subst h
    exact ⟨fun _ => rfl, fun _ => rfl⟩
  · intro x hx
    have hmem : x ∈ categories l := by
      rw [hperm.mem_iff, List.mem_dedup]
      exact hx
    have hlt : (categories l).indexOf x < (categories l).length :=
      List.indexOf_lt_length.mpr hmem
    unfold decode encode
    rw [List.getD_eq_getElem _ _ hlt]
    exact List.getElem_indexOf hlt

/-- Witness: the column [42, 7, 42, 19] gets categories [7, 19, 42];
decoding the code of id 42 returns 42. -/
theorem index_map_round_trip_witness :
    (42 ∈ [42, 7, 42, 19]) ∧ decode [42, 7, 42, 19] (encode [42, 7, 42, 19] 42) = 42 :=
  ⟨by decide, (index_map_round_trip [42, 7, 42, 19]).2.2 42 (by decide)⟩

/-! ## Error behaviour of the evaluation path -/

/-- Python runtime errors that the notebook's dictionary lookups can
raise. -/
inductive PyError
  | KeyError
deriving DecidableEq

/-- Embedding of a Python dict lookup `d[k]` over an association list:
the first matching value, or a raised KeyError when the key is absent. -/
def dict_get (d : List (Nat × Nat)) (k : Nat) : Except PyError Nat :=
  match d.find? (fun e => e.1 = k) with
  | some e => Except.ok e.2
  | none => Except.error PyError.KeyError

/-- Embedding of `new_products(row)`: looks the user up in `u_dict`,
maps the indices of the user's matrix row through `p_dict` to get the
purchase history, and returns the products of the current basket minus
that history.  Either lookup raises KeyError when the id is absent. -/
def new_products (udict pdict : List (Nat × Nat)) (userRow : Nat → List Nat)
    (user : Nat) (products : List Nat) : Except PyError (List Nat) :=
  match dict_get udict user with
  | Except.error e => Except.error e
  | Except.ok ui =>
    match (userRow ui).mapM (dict_get pdict) with
    | Except.error e => Except.error e
    | Except.ok liked => Except.ok (products.filter (fun a => ¬ (a ∈ liked)))

/-- Embedding of `build_product_user_matrix`: builds the COO matrix
`sparse.coo_matrix((quantity, (product_codes, user_codes)))` from the
aggregated (user_id, product_id, quantity) rows, where the category
code of an id is its position among the sorted distinct ids of its
column.  The function contains no validation of the quantities and no
raise statement. -/
def build_product_user_matrix (rows : List (Nat × Nat × ℚ)) : SparseMatrix :=
  ⟨rows.map (fun r =>
    (encode (rows.map (fun t => t.2.1)) r.2.1,
     encode (rows.map (fun t => t.1)) r.1,
     r.2.2))⟩

/-- The code performs no input validation: a row with a negative
quantity is accepted and its value stored unchanged (the build
succeeds), and a user id absent from the training dictionary fails
with KeyError, not with a validation error. -/
theorem negative_count_stored_key_error_raised :
    (build_product_user_matrix [(1, 2, -5)]).entries = [(0, 0, -5)] ∧
    new_products [] [] (fun _ => []) 3 [1] = Except.error PyError.KeyError := by
  constructor
  · rfl
  · rfl

/-- Quantities pass through the matrix build unvalidated and unchanged,
negative values included, and an absent user id makes new_products
fail with KeyError. -/
theorem no_validation_key_error (rows : List (Nat × Nat × ℚ))
    (udict pdict : List (Nat × Nat)) (userRow : Nat → List Nat)
    (user : Nat) (products : List Nat)
    (h : udict.find? (fun e => e.1 = user) = none) :
    ((build_product_user_matrix rows).entries.map (fun e => e.2.2)
        = rows.map (fun r => r.2.2)) ∧
    new_products udict pdict userRow user products
      = Except.error PyError.KeyError := by
  constructor
  · unfold build_product_user_matrix
    rw [List.map_map]
    rfl
  · unfold new_products dict_get
    rw [h]

/-- Witness: the build stores the quantities [-5] of a negative-count
row, and looking user 3 up in an empty dictionary raises KeyError. -/
theorem no_validation_key_error_witness :
    (List.find? (fun e => e.1 = 3) ([] : List (Nat × Nat)) = none) ∧
    (((build_product_user_matrix [(1, 2, -5)]).entries.map (fun e => e.2.2))
        = ([(1, 2, (-5 : ℚ))].map (fun r => r.2.2))) ∧
    new_products [] [] (fun _ => []) 3 [1] = Except.error PyError.KeyError :=
  ⟨rfl, no_validation_key_error [(1, 2, -5)] [] [] (fun _ => []) 3 [1] rfl⟩

/-! ## Popularity baseline (get_k_popular, popular_recommend) -/

/-- Embedding of `df["product_id"].value_counts()`: the distinct values
of the column, each paired with its number of occurrences, sorted by
count descending. -/
def value_counts (l : List Nat) : List (Nat × Nat) :=
  List.insertionSort (fun a b => b.2 ≤ a.2)
    (l.dedup.map (fun v => (v, (l.filter (fun x => x = v)).length)))

/-- Embedding of `get_k_popular(k, df)`:
`list(df["product_id"].value_counts().head(k).index)`, the k most
frequent products of the training data. -/
def get_k_popular (k : Nat) (l : List Nat) : List Nat :=
  ((value_counts l).map (fun e => e.1)).take k

/-- Embedding of `popular_recommend(row)`: the novel products of the
row's user are scored against the one `popular_products` list that was
computed once from the whole training set, the same list for every
row. -/
def popular_recommend (popular_products : List Nat)
    (udict pdict : List (Nat × Nat)) (userRow : Nat → List Nat)
    (user : Nat) (products : List Nat) : Except PyError ℚ :=
  match new_products udict pdict userRow user products with
  | Except.error e => Except.error e
  | Except.ok actual => Except.ok (recall_score actual popular_products)

/-- The popularity baseline is non-personalized and correct: every
selected product has at least the occurrence count of every
non-selected product; when one product is strictly most frequent it is
the first element of the list (for k > 0); and every user's baseline
score is the recall of the user's novel set against the one global
popularity list, independent of the user. -/
theorem popularity_baseline_global (l : List Nat) (k : Nat) :
    (∀ p, p ∈ get_k_popular k l → ∀ q, q ∈ l → ¬ q ∈ get_k_popular k l →
      (l.filter (fun x => x = q)).length ≤ (l.filter (fun x => x = p)).length) ∧
    (∀ m, m ∈ l →
      (∀ q, q ∈ l → q ≠ m →
        (l.filter (fun x => x = q)).length < (l.filter (fun x => x = m)).length) →
      0 < k → (get_k_popular k l).head? = some m) ∧
    (∀ udict pdict userRow user products,
      popular_recommend (get_k_popular k l) udict pdict userRow user products
        = (new_products udict pdict userRow user products).map
            (fun actual => recall_score actual (get_k_popular k l))) := by
  haveI htot : IsTotal (Nat × Nat) (fun a b : Nat × Nat => b.2 ≤ a.2) :=
    ⟨fun a b => le_total b.2 a.2⟩
  haveI htrans : IsTrans (Nat × Nat) (fun a b : Nat × Nat => b.2 ≤ a.2) :=
    ⟨fun _ _ _ hab hbc => le_trans hbc hab⟩
  set cnt : Nat → Nat := fun v => (l.filter (fun x => x = v)).length with hcnt
  set base : List (Nat × Nat) := l.dedup.map (fun v => (v, cnt v)) with hbase
  set sortedL : List (Nat × Nat) :=
    List.insertionSort (fun a b => b.2 ≤ a.2) base with hsortedL
  have hperm : List.Perm sortedL base := List.perm_insertionSort _ base
  have hsorted : List.Sorted (fun a b : Nat × Nat => b.2 ≤ a.2) sortedL :=
    List.sorted_insertionSort _ base
  have helem : ∀ e, e ∈ sortedL → e.2 = cnt e.1 ∧ e.1 ∈ l := by
    intro e he
    have : e ∈ base := hperm.mem_iff.mp he
    rcases List.mem_map.mp this with ⟨v, hv, hveq⟩
    constructor
    · rw [← hveq]
    · rw [← hveq]
      exact List.mem_dedup.mp hv
  have hmemS : ∀ v, v ∈ l → (v, cnt v) ∈ sortedL := by
    intro v hv
    rw [hperm.mem_iff]
    exact List.mem_map_of_mem _ (List.mem_dedup.mpr hv)
  have hpop : get_k_popular k l = (sortedL.map (fun e => e.1)).take k := by
    unfold get_k_popular value_counts
    rw [← hbase, ← hsortedL]
  refine ⟨?_, ?_, ?_⟩
  · intro p hp q hq hqnot
    rw [hpop] at hp hqnot
    rw [← List.map_take] at hp hqnot
    rcases List.mem_map.mp hp with ⟨ep, hep, hepeq⟩
    have hqdrop : (q, cnt q) ∈ sortedL.drop k := by
      have hqS : (q, cnt q) ∈ sortedL := hmemS q hq
      rw [← List.take_append_drop k sortedL, List.mem_append] at hqS
      rcases hqS with htk | hdk
      · exact absurd (List.mem_map_of_mem (fun e => e.1) htk) hqnot
      · exact hdk
    have hrel : ∀ a ∈ sortedL.take k, ∀ b ∈ sortedL.drop k,
        (fun a b : Nat × Nat => b.2 ≤ a.2) a b := by
      have := hsorted
      unfold List.Sorted at this
      rw [← List.take_append_drop k sortedL, List.pairwise_append] at this
      exact this.2.2
    have h1 : cnt q ≤ ep.2 := hrel ep hep (q, cnt q) hqdrop
    have h2 : ep.2 = cnt ep.1 := (helem ep (List.take_subset k sortedL hep)).1
    rw [h2, hepeq] at h1
    exact h1
  · intro m hm hmax hk
    have hmS : (m, cnt m) ∈ sortedL := hmemS m hm
    cases hS : sortedL with
    | nil => rw [hS] at hmS; exact absurd hmS (List.not_mem_nil _)
    | cons hd tl =>
      have hhd : hd.2 = cnt hd.1 ∧ hd.1 ∈ l := by
        apply helem
        rw [hS]
        exact List.mem_cons_self hd tl
      have hhd1 : hd.1 = m := by
        by_contra hne
        have hlt : cnt hd.1 < cnt m := hmax hd.1 hhd.2 hne
        rw [hS] at hmS
        rcases List.mem_cons.mp hmS with heq | htl
        · exact hne (congrArg Prod.fst heq.symm)
        · have hpw := hsorted
          rw [hS, List.sorted_cons] at hpw
          have : cnt m ≤ hd.2 := hpw.1 (m, cnt m) htl
          rw [hhd.1] at this
          exact absurd (lt_of_lt_of_le hlt this) (lt_irrefl _)
      rcases Nat.exists_eq_add_of_lt hk with ⟨k1, hk1⟩
      rw [hpop, hS]
      rw [hk1, Nat.zero_add]
      simp [hhd1]
  · intro udict pdict userRow user products
    unfold popular_recommend
    cases hnp : new_products udict pdict userRow user products with
    | error e => rfl
    | ok actual => rfl

/-- Witness: in the column [3, 9, 9], product 9 is strictly most
frequent and heads the popularity list for k = 2, and 3 is the
non-selected... (k = 1 case: 3 occurs once, 9 twice, 9 is selected and
its count dominates). -/
theorem popularity_baseline_global_witness :
    (9 ∈ [3, 9, 9]) ∧
    (∀ q, q ∈ [3, 9, 9] → q ≠ 9 →
      (([3, 9, 9].filter (fun x => x = q)).length <
        ([3, 9, 9].filter (fun x => x = 9)).length)) ∧
    (0 < 1) ∧ (get_k_popular 1 [3, 9, 9]).head? = some 9 :=
  ⟨by decide, by decide, by decide,
    (popularity_baseline_global [3, 9, 9] 1).2.1 9 (by decide) (by decide) (by decide)⟩

/-! ## Recommendation generator (spec-modelled) -/

/-- Dot product of two factor vectors. -/
def dotProduct (x y : List ℚ) : ℚ := (List.zipWith (fun a b => a * b) x y).sum

/-- Ranking order of scored items: descending by score, ties broken by
ascending item index. -/
def rankLE : Nat × ℚ → Nat × ℚ → Prop :=
  fun a b => b.2 < a.2 ∨ (b.2 = a.2 ∧ a.1 ≤ b.1)

instance : DecidableRel rankLE := fun a b => by unfold rankLE; infer_instance

/-- Modelled from the spec: the Recommendation Generator of section 4.3
is implemented by the external implicit library and is absent from the
source.  `recommend(user_index, X, Y, N, exclude)` scores every item by
the dot product of the user and item factors, removes the excluded
items before ranking, and returns the top N by descending score with
ties broken by ascending item index. -/
def recommend (u : Nat) (X Y : Nat → List ℚ) (nItems N : Nat)
    (exclude : List Nat) : List (Nat × ℚ) :=
  (List.insertionSort rankLE
    (((List.range nItems).filter (fun i => ¬ i ∈ exclude)).map
      (fun i => (i, dotProduct (X u) (Y i))))).take N

/-- Recommendations exclude the supplied history before ranking: the
returned items are disjoint from the excluded set, and when at least N
non-excluded items exist exactly N items are returned. -/
theorem recommend_excludes_history (u : Nat) (X Y : Nat → List ℚ)
    (nItems N : Nat) (exclude : List Nat) :
    (∀ e, e ∈ recommend u X Y nItems N exclude → ¬ e.1 ∈ exclude) ∧
    (N ≤ ((List.range nItems).filter (fun i => ¬ i ∈ exclude)).length →
      (recommend u X Y nItems N exclude).length = N) := by
  set cand := (List.range nItems).filter (fun i => ¬ i ∈ exclude) with hcand
  set scored := cand.map (fun i => (i, dotProduct (X u) (Y i))) with hscored
  have hperm : List.Perm (List.insertionSort rankLE scored) scored :=
    List.perm_insertionSort _ _
  constructor
  · intro e he
    unfold recommend at he
    rw [← hcand, ← hscored] at he
    have hmem : e ∈ scored := hperm.mem_iff.mp (List.take_subset N _ he)
    rcases List.mem_map.mp hmem with ⟨i, hi, hieq⟩
    have hni : ¬ i ∈ exclude := by
      have := (List.mem_filter.mp hi).2
      exact of_decide_eq_true this
    rw [← hieq]
    exact hni
  · intro hN
    unfold recommend
    rw [← hcand, ← hscored, List.length_take, hperm.length_eq, List.length_map]
    exact Nat.min_eq_left hN

/-- Witness: with 3 items, item 0 excluded and N = 2, exactly the 2
non-excluded items are returned. -/
theorem recommend_excludes_history_witness :
    (2 ≤ ((List.range 3).filter (fun i => ¬ i ∈ [0])).length) ∧
    (recommend 0 (fun _ => [1]) (fun i => [(i : ℚ)]) 3 2 [0]).length = 2 :=
  ⟨by decide, (recommend_excludes_history 0 (fun _ => [1]) (fun i => [(i : ℚ)])
    3 2 [0]).2 (by decide)⟩

/-! ## ALS factorization engine (spec-modelled) -/

/-- Failure of the linear solver on a system that is not positive
definite. -/
inductive AlsError
  | NumericalError
deriving DecidableEq

/-- Entrywise sum of two factor vectors. -/
def vecAdd (a b : List ℚ) : List ℚ := List.zipWith (fun x y => x + y) a b

/-- A vector scaled by a constant. -/
def vecScale (c : ℚ) (v : List ℚ) : List ℚ := v.map (fun x => c * x)

/-- Entrywise sum of two k x k matrices. -/
def matAdd (A B : List (List ℚ)) : List (List ℚ) := List.zipWith vecAdd A B

/-- A matrix scaled by a constant. -/
def matScale (c : ℚ) (A : List (List ℚ)) : List (List ℚ) := A.map (vecScale c)

/-- Outer product of two k-vectors. -/
def outer (x y : List ℚ) : List (List ℚ) := x.map (fun xi => vecScale xi y)

/-- The zero vector of width k. -/
def zeroVec (k : Nat) : List ℚ := List.replicate k 0

/-- The zero k x k matrix. -/
def zeroMat (k : Nat) : List (List ℚ) := List.replicate k (zeroVec k)

/-- The k x k identity matrix. -/
def identityMat (k : Nat) : List (List ℚ) :=
  (List.range k).map (fun i =>
    (List.range k).map (fun j => if i = j then (1 : ℚ) else 0))

/-- The Gram matrix of a factor matrix, computed once per half-step and
shared across all rows of that half-step. -/
def gram (k : Nat) (Y : List (List ℚ)) : List (List ℚ) :=
  Y.foldl (fun acc y => matAdd acc (outer y y)) (zeroMat k)

/-- Determinant by Laplace expansion along the first row, with the
matrix dimension as structural fuel. -/
def detAux : Nat → List (List ℚ) → ℚ
  | 0, _ => 1
  | _, [] => 1
  | fuel + 1, r :: rs =>
    ((List.range r.length).map
      (fun j => (if j % 2 = 0 then (1 : ℚ) else -1) * r.getD j 0 *
        detAux fuel (rs.map (fun row => row.eraseIdx j)))).sum

/-- Determinant of a square rational matrix. -/
def det (A : List (List ℚ)) : ℚ := detAux A.length A

/-- The order-m leading principal minor of a matrix. -/
def leadingMinor (A : List (List ℚ)) (m : Nat) : ℚ :=
  det ((A.take m).map (fun row => row.take m))

/-- Sylvester criterion for the symmetric normal-equation system: the
system is positive definite iff all k leading principal minors are
positive. -/
def posDef (k : Nat) (A : List (List ℚ)) : Bool :=
  (List.range k).all (fun m => decide (0 < leadingMinor A (m + 1)))

/-- Exact solve of the k x k system A x = b by Cramer's rule after the
positive-definiteness check; a system that is not positive definite
fails with NumericalError, which is never retried. -/
def solveSystem (k : Nat) (A : List (List ℚ)) (b : List ℚ) :
    Except AlsError (List ℚ) :=
  if posDef k A then
    Except.ok ((List.range k).map
      (fun j => det (List.zipWith (fun row bi => row.set j bi) A b) / det A))
  else Except.error AlsError.NumericalError

/-- A 64-bit linear congruential step for the seeded initialization. -/
def lcg (s : Nat) : Nat :=
  (6364136223846793005 * s + 1442695040888963407) % 18446744073709551616

/-- A pseudorandom small positive rational in (0, 1] drawn from a
generator state. -/
def prngVal (s : Nat) : ℚ := (((s % 1000 : Nat) : ℚ) + 1) / 1000

/-- One factor row of width n drawn from the generator, with the final
state. -/
def prngRow : Nat → Nat → List ℚ × Nat
  | 0, s => ([], s)
  | n + 1, s =>
    let s2 := lcg s
    let p := prngRow n s2
    (prngVal s2 :: p.1, p.2)

/-- Seeded initialization of an n x k factor matrix. -/
def initFactors : Nat → Nat → Nat → List (List ℚ) × Nat
  | 0, _, s => ([], s)
  | n + 1, k, s =>
    let row := prngRow k s
    let rest := initFactors n k row.2
    (row.1 :: rest.1, rest.2)

/-- The normal-equation system of one row: the shared Gram matrix plus
the correction accumulated over the row's nonzero entries plus the
regularization term, and the right-hand side accumulated over the same
nonzeros.  A stored value s encodes confidence c = 1 + s with
preference 1, so the correction factor is s = c - 1 and the right-hand
side weight is c = 1 + s. -/
def rowSystem (k : Nat) (lam : ℚ) (factors : List (List ℚ))
    (gramM : List (List ℚ)) (nz : List (Nat × ℚ)) :
    List (List ℚ) × List ℚ :=
  (matAdd (matAdd gramM
      (nz.foldl (fun acc e =>
        matAdd acc (matScale e.2
          (outer (factors.getD e.1 (zeroVec k)) (factors.getD e.1 (zeroVec k)))))
        (zeroMat k)))
    (matScale lam (identityMat k)),
   nz.foldl (fun acc e =>
       vecAdd acc (vecScale (1 + e.2) (factors.getD e.1 (zeroVec k))))
     (zeroVec k))

/-- One user half-step: every user row is solved independently against
the snapshot of the item factors. -/
def userStep (k : Nat) (lam : ℚ) (C : List (Nat × Nat × ℚ)) (nUsers : Nat)
    (Y : List (List ℚ)) : Except AlsError (List (List ℚ)) :=
  let g := gram k Y
  (List.range nUsers).mapM (fun u =>
    let s := rowSystem k lam Y g
      ((C.filter (fun e => e.2.1 = u)).map (fun e => (e.1, e.2.2)))
    solveSystem k s.1 s.2)

/-- One item half-step, symmetric to the user half-step, holding the
user factors fixed. -/
def itemStep (k : Nat) (lam : ℚ) (C : List (Nat × Nat × ℚ)) (nItems : Nat)
    (X : List (List ℚ)) : Except AlsError (List (List ℚ)) :=
  let g := gram k X
  (List.range nItems).mapM (fun i =>
    let s := rowSystem k lam X g
      ((C.filter (fun e => e.1 = i)).map (fun e => (e.2.1, e.2.2)))
    solveSystem k s.1 s.2)

/-- Exactly T alternations, user update then item update each time,
with no convergence test. -/
def alsIterate (k : Nat) (lam : ℚ) (C : List (Nat × Nat × ℚ))
    (nUsers nItems : Nat) :
    Nat → List (List ℚ) × List (List ℚ) →
      Except AlsError (List (List ℚ) × List (List ℚ))
  | 0, st => Except.ok st
  | T + 1, st =>
    match userStep k lam C nUsers st.2 with
    | Except.error e => Except.error e
    | Except.ok X2 =>
      match itemStep k lam C nItems X2 with
      | Except.error e => Except.error e
      | Except.ok Y2 => alsIterate k lam C nUsers nItems T (X2, Y2)

/-- Modelled from the spec: the ALS engine of section 4.2 is
implemented by the external implicit library and is absent from the
source.  `build_imf` applies the confidence transform of the source to
the raw utility matrix and runs exactly T alternations from the seeded
initialization, failing with NumericalError on a system that is not
positive definite. -/
def build_imf (R : SparseMatrix) (alpha : ℚ) (nUsers nItems k : Nat)
    (lam : ℚ) (T seed : Nat) :
    Except AlsError (List (List ℚ) × List (List ℚ)) :=
  let X0 := initFactors nUsers k seed
  let Y0 := initFactors nItems k X0.2
  alsIterate k lam (confidence_matrix R alpha).entries nUsers nItems T
    (X0.1, Y0.1)

/-- Training is deterministic: two runs of build_imf over the same
utility matrix with the same alpha, k, lambda, T and seed return
identical factor matrices. -/
theorem build_imf_deterministic (R₁ R₂ : SparseMatrix) (alpha₁ alpha₂ : ℚ)
    (nUsers₁ nUsers₂ nItems₁ nItems₂ k₁ k₂ : Nat) (lam₁ lam₂ : ℚ)
    (T₁ T₂ seed₁ seed₂ : Nat)
    (hR : R₁ = R₂) (halpha : alpha₁ = alpha₂) (hU : nUsers₁ = nUsers₂)
    (hI : nItems₁ = nItems₂) (hk : k₁ = k₂) (hlam : lam₁ = lam₂)
    (hT : T₁ = T₂) (hseed : seed₁ = seed₂) :
    build_imf R₁ alpha₁ nUsers₁ nItems₁ k₁ lam₁ T₁ seed₁
      = build_imf R₂ alpha₂ nUsers₂ nItems₂ k₂ lam₂ T₂ seed₂ := by
  subst hR
  subst halpha
  subst hU
  subst hI
  subst hk
  subst hlam
  subst hT
  subst hseed
  rfl

/-- Witness: two runs over the same one-entry matrix with identical
hyperparameters agree. -/
theorem build_imf_deterministic_witness :
    SparseMatrix.mk [(0, 0, 2)] = SparseMatrix.mk [(0, 0, 2)] ∧
    build_imf (SparseMatrix.mk [(0, 0, 2)]) 15 1 1 1 1 1 7
      = build_imf (SparseMatrix.mk [(0, 0, 2)]) 15 1 1 1 1 1 7 :=
  ⟨rfl, build_imf_deterministic (SparseMatrix.mk [(0, 0, 2)])
    (SparseMatrix.mk [(0, 0, 2)]) 15 15 1 1 1 1 1 1 1 1 1 1 7 7
    rfl rfl rfl rfl rfl rfl rfl rfl⟩

end IMF
